import Mathlib

/-!
Verification of `stan::services::pathfinder::pathfinder_lbfgs_multi`
(src/stan/services/pathfinder/multi.hpp).

The function is embedded shallowly as a pure function from an input record to
an optional output record (`none` models non-termination of the PSIS draw
loop).  External collaborators — the single-path runner
`pathfinder_lbfgs_single`, the weight-correction function `psis_weights`, the
RNG/`discrete_distribution` draw and the `std::to_string` rendering of
doubles — are oracle parameters carried in the input record, since their
code is outside this translation unit.  The TBB `parallel_for` over
`blocked_range(0, num_paths)` is modelled by an arbitrary partition of the
index range into blocks; inside one block the iterations run sequentially,
exactly as in the lambda's `for` loop.
-/

namespace PathfinderMulti

/-- Tuple returned by the `pathfinder_lbfgs_single` collaborator, as consumed
by `pathfinder_lbfgs_multi`: `failed` models `std::get<0>(...) ==
error_codes::SOFTWARE`; `lp_ratios` is the per-path ratio vector
(`std::get<1>`); `samples` is the per-path sample matrix (`std::get<2>`),
kept as its list of columns; `fn_calls` is the evaluation count
(`std::get<3>`). -/
structure PathResult where
  failed : Bool
  lp_ratios : List ℝ
  samples : List (List ℝ)
  fn_calls : ℕ

/-- Stream identifier handed to path `i` of the single-pathfinder runs:
the code passes `path + iter` to `pathfinder_lbfgs_single` (multi.hpp line
121). -/
def singleStream (path i : ℕ) : ℕ := path + i

/-- Stream identifier of the PSIS resampling RNG: the code calls
`util::create_rng<boost::ecuyer1988>(random_seed, path)` (multi.hpp lines
174-175). -/
def resampleStream (path : ℕ) : ℕ := path

/-- One TBB block of the `tbb::parallel_for` lambda (multi.hpp lines
117-138): the indices of the block are processed in order; a successful path
appends its result, while a failed path logs its index and makes the lambda
`return`, which abandons the remaining indices of the same block.  Returns
the collected results together with the list of logged failed indices. -/
def runBlock (runner : ℕ → ℕ → PathResult) (path : ℕ) :
    List ℕ → List PathResult × List ℕ
  | [] => ([], [])
  | i :: rest =>
    let r := runner (singleStream path i) i
    if r.failed then ([], [i])
    else ((runBlock runner path rest).1.cons r, (runBlock runner path rest).2)

/-- The whole parallel phase: every block of the partition is executed and
the per-block results and failure logs are collected (`individual_lp_ratios`
/ `individual_samples` insertion plus the failure log messages). -/
def runAllBlocks (runner : ℕ → ℕ → PathResult) (path : ℕ)
    (blocks : List (List ℕ)) : List PathResult × List ℕ :=
  ((blocks.map fun b => (runBlock runner path b).1).flatten,
   (blocks.map fun b => (runBlock runner path b).2).flatten)

/-- Value of the atomic counter `lp_calls` after the join: only the
`lp_calls += std::get<3>(pathfinder_ret)` of non-failed iterations runs
(multi.hpp line 136 is after the failure check's early `return`). -/
def lpCalls (rs : List PathResult) : ℕ := (rs.map fun r => r.fn_calls).sum

/-- Aggregated ratio vector `lp_ratios` (multi.hpp lines 158-165):
concatenation of the successful paths' ratio vectors in collection order. -/
def aggRatios (rs : List PathResult) : List ℝ :=
  (rs.map fun r => r.lp_ratios).flatten

/-- Aggregated sample matrix `samples` as its list of columns (multi.hpp
lines 159-167): horizontal concatenation of the successful paths' sample
matrices in collection order. -/
def aggSamples (rs : List PathResult) : List (List ℝ) :=
  (rs.map fun r => r.samples).flatten

/-- Total draw count `num_returned_samples` (multi.hpp lines 155-157): the
sum of the per-path ratio-vector lengths. -/
def numReturnedSamples (rs : List PathResult) : ℕ :=
  (rs.map fun r => r.lp_ratios.length).sum

/-- Starting column `filling_start_row` of path `i` inside the aggregated
matrix (multi.hpp lines 161-168): the sum of the earlier paths' ratio-vector
lengths (the code advances the offset by `individual_lp_ratios[i].size()`). -/
def pathOffset (rs : List PathResult) (i : ℕ) : ℕ :=
  ((rs.take i).map fun r => r.lp_ratios.length).sum

/-- Tail length for the PSIS weight correction (multi.hpp lines 170-171):
`std::min(0.2 * num_returned_samples, 3 * std::sqrt(num_returned_samples))`. -/
noncomputable def tail_len (n : ℕ) : ℝ :=
  min (0.2 * n) (3 * Real.sqrt n)

/-- Value of `(size_t)(num_multi_draws - 1)`, the upper bound of the PSIS
draw loop `for (size_t i = 0; i <= num_multi_draws - 1; ++i)` (multi.hpp
line 184): the `int` operand is converted to the unsigned 64-bit type of
`i`, i.e. reduced modulo `2^64`. -/
def drawBound (m : ℤ) : ℕ := ((m - 1) % (2 ^ 64 : ℤ)).toNat

/-- Loop condition of the PSIS draw loop at iteration `i` (counting every
increment of the wrapping `size_t` counter): `i <= (size_t)(num_multi_draws
- 1)`. -/
def drawLoopContinues (m : ℤ) (i : ℕ) : Bool :=
  decide (i % 2 ^ 64 ≤ drawBound m)

/-- Header written to both writers before any path executes (multi.hpp lines
104-109): the model's constrained parameter names followed by
`"lp_approx__"` and `"lp__"`. -/
def param_names (constrainedNames : List String) : List String :=
  constrainedNames ++ ["lp_approx__", "lp__"]

/-- Log message for a failed path (multi.hpp lines 128-129). -/
def failLogMsg (i : ℕ) : String :=
  "Pathfinder iteration: " ++ toString i ++ " failed."

/-- Evaluation-count log (multi.hpp lines 151-154), emitted only when
`refresh != 0`. -/
def evalCountLog (refresh : ℤ) (calls : ℕ) : List String :=
  if refresh ≠ 0 then
    ["Total log probability function evaluations:" ++ toString calls]
  else []

/-- The `time_header` string (multi.hpp line 190). -/
def timeHeader : String := "Elapsed Time: "

/-- The padding `std::string(time_header.size(), ' ')` used to left-align the
PSIS and total timing lines with the first line's label (multi.hpp lines
195, 200). -/
def timePad : String := String.mk (List.replicate timeHeader.length ' ')

/-- Events sent to the parameter writer, in call order. -/
inductive ParamEvent
  | names (header : List String)
  | draw (col : List ℝ)
  | brk
  | text (s : String)

/-- Trailer written to the parameter writer after resampling (multi.hpp
lines 189-204): empty section break, pathfinder time, PSIS time, total time,
empty section break.  `render` is the `std::to_string` oracle for doubles. -/
def trailerEvents (t1 t2 : ℝ) (render : ℝ → String) : List ParamEvent :=
  [ParamEvent.brk,
   ParamEvent.text (timeHeader ++ render t1 ++ " seconds (Pathfinders)"),
   ParamEvent.text (timePad ++ render t2 ++ " seconds (PSIS)"),
   ParamEvent.text (timePad ++ render (t1 + t2) ++ " seconds (Total)"),
   ParamEvent.brk]

/-- Modelled from the spec: the fixed failure status `error_codes::SOFTWARE`
returned on fatal failure (`stan/services/error_codes.hpp` is not part of
this translation unit; the spec only requires "a single fixed failure
code", and the sysexits convention used by Stan sets `SOFTWARE = 70`). -/
def softwareErrorCode : ℕ := 70

/-- Observable behaviour of one invocation: the returned status code, the
sequence of parameter-writer calls, the sequence of diagnostic-writer calls
(each a header row), and the logger messages. -/
structure MultiOutput where
  retCode : ℕ
  paramOut : List ParamEvent
  diagOut : List (List String)
  logs : List String

/-- Inputs of `pathfinder_lbfgs_multi`, with the external collaborators as
oracles: `runner (stream) (iter)` is `pathfinder_lbfgs_single` called with
stream id `path + iter`; `psis_weights` is the weight-correction
collaborator; `rng_draw seed stream weights k` is the `k`-th value of
`rand_psis_idx()` for the RNG created from `(seed, stream)` and the
categorical distribution over `weights`; `render` is `std::to_string`;
`pathTime` and `psisTime` are the measured wall-clock durations. -/
structure MultiInputs where
  constrainedNames : List String
  random_seed : ℕ
  path : ℕ
  refresh : ℤ
  num_multi_draws : ℤ
  num_paths : ℕ
  blocks : List (List ℕ)
  runner : ℕ → ℕ → PathResult
  psis_weights : List ℝ → ℝ → List ℝ
  rng_draw : ℕ → ℕ → List ℝ → ℕ → ℕ
  pathTime : ℝ
  psisTime : ℝ
  render : ℝ → String

/-- Shallow embedding of `pathfinder_lbfgs_multi` (multi.hpp lines 92-206).
Returns `none` when the PSIS draw loop never terminates (its wrapping
`size_t` counter can never exceed the loop bound), otherwise the status code
and the three observable output streams. -/
noncomputable def pathfinder_lbfgs_multi (inp : MultiInputs) : Option MultiOutput :=
  let hdr := param_names inp.constrainedNames
  let orch := runAllBlocks inp.runner inp.path inp.blocks
  let failLogs := orch.2.map failLogMsg
  if orch.1.length = 0 then
    some ⟨softwareErrorCode, [ParamEvent.names hdr], [hdr],
      failLogs ++ ["No pathfinders ran successfully"]⟩
  else
    let ratios := aggRatios orch.1
    let cols := aggSamples orch.1
    let weights := inp.psis_weights ratios (tail_len ratios.length)
    if drawBound inp.num_multi_draws = 2 ^ 64 - 1 then none
    else
      some ⟨0,
        ParamEvent.names hdr
          :: ((List.range (drawBound inp.num_multi_draws + 1)).map fun j =>
              ParamEvent.draw (cols.getD
                (inp.rng_draw inp.random_seed (resampleStream inp.path) weights j) []))
          ++ trailerEvents inp.pathTime inp.psisTime inp.render,
        [hdr],
        failLogs ++ evalCountLog inp.refresh (lpCalls orch.1)⟩

/-- The loop bound `(size_t)(num_multi_draws - 1)` is a value of the 64-bit
unsigned type. -/
theorem drawBound_lt (m : ℤ) : drawBound m < 2 ^ 64 := by
  unfold drawBound
  have h1 : (0 : ℤ) < 2 ^ 64 := by positivity
  have h2 := Int.emod_lt_of_pos (m - 1) h1
  have h3 := Int.emod_nonneg (m - 1) (by positivity : (2 ^ 64 : ℤ) ≠ 0)
  omega

/-- The PSIS draw loop runs forever exactly when the loop bound is the
maximal `size_t` value, i.e. exactly in the guard case where the embedding
returns `none`. -/
theorem drawLoop_never_exits_iff (m : ℤ) :
    (∀ i : ℕ, drawLoopContinues m i = true) ↔ drawBound m = 2 ^ 64 - 1 := by
  constructor
  · intro h
    have hb := drawBound_lt m
    by_contra hne
    have h2 := h (drawBound m + 1)
    unfold drawLoopContinues at h2
    rw [decide_eq_true_iff] at h2
    have hlt : drawBound m + 1 < 2 ^ 64 := by omega
    rw [Nat.mod_eq_of_lt hlt] at h2
    omega
  · intro h i
    unfold drawLoopContinues
    rw [decide_eq_true_iff]
    have : i % 2 ^ 64 < 2 ^ 64 := Nat.mod_lt _ (by positivity)
    omega

/-- When the loop does terminate, it emits exactly `drawBound m + 1` rows:
the condition holds for every counter value up to the bound and first fails
at `drawBound m + 1`. -/
theorem drawLoop_exits_after (m : ℤ) (h : drawBound m ≠ 2 ^ 64 - 1) :
    drawLoopContinues m (drawBound m + 1) = false ∧
    ∀ i, i ≤ drawBound m → drawLoopContinues m i = true := by
  have hb := drawBound_lt m
  constructor
  · unfold drawLoopContinues
    rw [decide_eq_false_iff_not]
    have hlt : drawBound m + 1 < 2 ^ 64 := by omega
    rw [Nat.mod_eq_of_lt hlt]
    omega
  · intro i hi
    unfold drawLoopContinues
    rw [decide_eq_true_iff]
    have : i % 2 ^ 64 ≤ i := Nat.mod_le _ _
    omega

/-- For an in-range positive `int` value of `num_multi_draws`, the loop
bound is `num_multi_draws - 1`. -/
theorem drawBound_of_pos (m : ℤ) (h1 : 1 ≤ m) (h2 : m < 2 ^ 31) :
    drawBound m = (m - 1).toNat := by
  unfold drawBound
  rw [Int.emod_eq_of_lt (by omega) (by norm_num; omega)]

/-- The collected results of one block are exactly the runner results of the
indices executed before the block's first failure, in block order. -/
theorem runBlock_fst (runner : ℕ → ℕ → PathResult) (path : ℕ) (l : List ℕ) :
    (runBlock runner path l).1
      = (l.takeWhile fun i => !(runner (singleStream path i) i).failed).map
          fun i => runner (singleStream path i) i := by
  induction l with
  | nil => rfl
  | cons i rest ih =>
    unfold runBlock
    by_cases h : (runner (singleStream path i) i).failed
    · simp [h, List.takeWhile_cons]
    · simp [h, List.takeWhile_cons, ih]

/-- C5: the tail length handed to `psis_weights` is
`min(0.2 * N, 3 * sqrt(N))` for `N` the aggregated ratio count; in
particular `N = 100` gives `20` and `N = 2500` gives `150`. -/
theorem tail_len_formula :
    (∀ n : ℕ, tail_len n = min (0.2 * (n : ℝ)) (3 * Real.sqrt n)) ∧
    tail_len 100 = 20 ∧ tail_len 2500 = 150 := by
  refine ⟨fun n => rfl, ?_, ?_⟩
  · unfold tail_len
    rw [show ((100 : ℕ) : ℝ) = 10 ^ 2 by norm_num,
      Real.sqrt_sq (by norm_num : (0 : ℝ) ≤ 10)]
    norm_num
  · unfold tail_len
    rw [show ((2500 : ℕ) : ℝ) = 50 ^ 2 by norm_num,
      Real.sqrt_sq (by norm_num : (0 : ℝ) ≤ 50)]
    norm_num

/-- C3 counterexample: the stream identifier of the resampling RNG (`path`,
multi.hpp line 175) equals the stream identifier `path + 0` handed to path
0 (line 121), so it is not disjoint from every path's stream; here at
`path = 5`. -/
theorem resample_stream_collides_with_path0 :
    resampleStream 5 = singleStream 5 0 := rfl

/-- C3 (amended): the resampling RNG is seeded from `(random_seed, path)`
and path `i` from `(random_seed, path + i)`; the resampling stream
identifier coincides with path 0's identifier and differs from that of
every path with index at least 1. -/
theorem rng_streams (p : ℕ) :
    resampleStream p = p ∧
    (∀ i : ℕ, singleStream p i = p + i) ∧
    resampleStream p = singleStream p 0 ∧
    (∀ i : ℕ, 1 ≤ i → resampleStream p ≠ singleStream p i) := by
  refine ⟨rfl, fun i => rfl, rfl, fun i hi => ?_⟩
  unfold resampleStream singleStream
  omega

/-- Witness for `rng_streams` at `path = 5`, `i = 1`. -/
theorem rng_streams_witness :
    resampleStream 5 = 5 ∧ singleStream 5 1 = 6 ∧
    resampleStream 5 ≠ singleStream 5 1 :=
  ⟨(rng_streams 5).1, rfl, (rng_streams 5).2.2.2 1 (by norm_num)⟩

/-- Concrete invocation for C1: one path, which succeeds with two draws, and
`num_multi_draws = 0`. -/
noncomputable def inpC1 : MultiInputs :=
  ⟨["theta"], 1, 2, 1, 0, 1, [[0]],
   fun _ _ => ⟨false, [1, 2], [[3], [4]], 7⟩,
   fun _ _ => [1, 1],
   fun _ _ _ _ => 0,
   0, 0, fun _ => "0"⟩

/-- C1: with `num_multi_draws = 0` the draw loop `for (size_t i = 0; i <=
num_multi_draws - 1; ++i)` never exits — `(size_t)(0 - 1)` wraps to the
maximal `size_t` value, so the loop condition holds for every counter value
— and the invocation never terminates (the embedding returns `none`)
instead of validly emitting zero rows. -/
theorem zero_multi_draws_loops_forever :
    (∀ i : ℕ, drawLoopContinues 0 i = true) ∧
    pathfinder_lbfgs_multi inpC1 = none := by
  constructor
  · exact (drawLoop_never_exits_iff 0).mpr (by decide)
  · rfl

/-- Runner for C2: path 0 fails (reporting 3 evaluations), every other path
succeeds with one draw. -/
def runnerC2 : ℕ → ℕ → PathResult := fun _ i =>
  if i = 0 then ⟨true, [], [], 3⟩ else ⟨false, [1], [[1]], 4⟩

/-- C2: when paths 0 and 1 are scheduled as one TBB block `[0, 2)` and path
0 fails, the lambda's `return` (multi.hpp line 130) abandons the rest of the
block: no result is collected at all even though path 1 would succeed, while
under the partition into singleton blocks path 1's result is collected —
so a failure does prevent a sibling path of the same block from executing. -/
theorem failed_path_skips_block_remainder :
    runAllBlocks runnerC2 0 [[0, 1]] = ([], [0]) ∧
    (runnerC2 (singleStream 0 1) 1).failed = false ∧
    runAllBlocks runnerC2 0 [[0], [1]] = ([⟨false, [1], [[1]], 4⟩], [0]) :=
  ⟨rfl, rfl, rfl⟩

/-- Runner for C8: the only path fails, reporting 5 evaluations. -/
def runnerC8 : ℕ → ℕ → PathResult := fun _ _ => ⟨true, [], [], 5⟩

/-- C8 counterexample: a failed path reporting 5 evaluations contributes
nothing to `lp_calls` (the `lp_calls += ...` on multi.hpp line 136 sits
after the failure check's early `return`): the reported total is 0, not 5. -/
theorem failed_path_calls_not_counted :
    lpCalls (runAllBlocks runnerC8 0 [[0]]).1 = 0 ∧
    (runnerC8 (singleStream 0 0) 0).fn_calls = 5 := ⟨rfl, rfl⟩

/-- C8 (amended): the evaluation-count total equals the sum, over all TBB
blocks, of the evaluation counts of the successfully completed paths — the
paths of the block executed before its first failure; failed paths (and
paths skipped after an earlier failure in their block) contribute nothing. -/
theorem lpCalls_successful_only (runner : ℕ → ℕ → PathResult) (path : ℕ)
    (blocks : List (List ℕ)) :
    lpCalls (runAllBlocks runner path blocks).1
      = (blocks.map fun b =>
          ((b.takeWhile fun i => !(runner (singleStream path i) i).failed).map
            fun i => (runner (singleStream path i) i).fn_calls).sum).sum := by
  unfold lpCalls runAllBlocks
  rw [List.map_flatten, List.sum_flatten, List.map_map, List.map_map]
  refine congrArg List.sum (List.map_congr_left fun b _ => ?_)
  show ((runBlock runner path b).1.map fun r => r.fn_calls).sum = _
  rw [runBlock_fst, List.map_map]
  rfl

/-- Replace the runner oracle of an input record, keeping everything else. -/
def withRunner (inp : MultiInputs) (r : ℕ → ℕ → PathResult) : MultiInputs :=
  ⟨inp.constrainedNames, inp.random_seed, inp.path, inp.refresh,
   inp.num_multi_draws, inp.num_paths, inp.blocks, r, inp.psis_weights,
   inp.rng_draw, inp.pathTime, inp.psisTime, inp.render⟩

/-- A partition made of empty blocks runs no path at all. -/
theorem runAllBlocks_empty (runner : ℕ → ℕ → PathResult) (path : ℕ)
    (blocks : List (List ℕ)) (hb : ∀ b ∈ blocks, b = []) :
    runAllBlocks runner path blocks = ([], []) := by
  unfold runAllBlocks
  rw [Prod.mk.injEq]
  constructor
  all_goals
    rw [List.flatten_eq_nil_iff]
    intro l hl
    obtain ⟨b, hbm, rfl⟩ := List.mem_map.mp hl
    rw [hb b hbm]
    rfl

/-- C4: when zero paths succeed the call returns the fixed failure code, the
header row has already been written to both sinks, no draw row and no
trailer is emitted, and the only further output is on the logger (the
per-failure lines and the final explanatory line). -/
theorem zero_successes_behavior (inp : MultiInputs)
    (h : (runAllBlocks inp.runner inp.path inp.blocks).1.length = 0) :
    pathfinder_lbfgs_multi inp
      = some ⟨softwareErrorCode,
          [ParamEvent.names (param_names inp.constrainedNames)],
          [param_names inp.constrainedNames],
          ((runAllBlocks inp.runner inp.path inp.blocks).2.map failLogMsg)
            ++ ["No pathfinders ran successfully"]⟩ := by
  simp only [pathfinder_lbfgs_multi, h, if_pos]

/-- Runner for the C4 witness: the only path fails. -/
def runnerC4 : ℕ → ℕ → PathResult := fun _ _ => ⟨true, [], [], 2⟩

/-- Concrete invocation for the C4 witness: one path, which fails. -/
noncomputable def inpC4 : MultiInputs :=
  ⟨["a", "b"], 3, 4, 0, 5, 1, [[0]], runnerC4,
   fun _ _ => [1], fun _ _ _ _ => 0, 0, 0, fun _ => "t"⟩

/-- Witness for `zero_successes_behavior` on `inpC4`. -/
theorem zero_successes_witness :
    pathfinder_lbfgs_multi inpC4
      = some ⟨softwareErrorCode,
          [ParamEvent.names (param_names ["a", "b"])],
          [param_names ["a", "b"]],
          [failLogMsg 0, "No pathfinders ran successfully"]⟩ :=
  zero_successes_behavior inpC4 rfl

/-- C10: with `num_paths = 0` (so an empty, validly partitioned index
range) no path is dispatched — the outcome does not depend on the runner —
and the call goes through the zero-successes branch: header to both sinks,
the no-successful-pathfinders log line, the failure code, and nothing else. -/
theorem zero_paths_behavior (inp : MultiInputs) (h0 : inp.num_paths = 0)
    (hb : inp.blocks.flatten = List.range inp.num_paths) :
    runAllBlocks inp.runner inp.path inp.blocks = ([], []) ∧
    pathfinder_lbfgs_multi inp
      = some ⟨softwareErrorCode,
          [ParamEvent.names (param_names inp.constrainedNames)],
          [param_names inp.constrainedNames],
          ["No pathfinders ran successfully"]⟩ ∧
    (∀ r : ℕ → ℕ → PathResult,
      pathfinder_lbfgs_multi (withRunner inp r) = pathfinder_lbfgs_multi inp) := by
  rw [h0] at hb
  simp only [List.range_zero] at hb
  have hemp : ∀ b ∈ inp.blocks, b = [] := List.flatten_eq_nil_iff.mp hb
  have h1 := runAllBlocks_empty inp.runner inp.path inp.blocks hemp
  refine ⟨h1, ?_, ?_⟩
  · simp only [pathfinder_lbfgs_multi, h1]
    rfl
  · intro r
    have h2 := runAllBlocks_empty r inp.path inp.blocks hemp
    simp only [pathfinder_lbfgs_multi, withRunner, h1, h2]

/-- Concrete invocation for the C10 witness: zero paths, empty partition. -/
noncomputable def inpC10 : MultiInputs :=
  ⟨["x"], 0, 0, 1, 3, 0, [], fun _ _ => ⟨true, [], [], 0⟩,
   fun _ _ => [], fun _ _ _ _ => 0, 0, 0, fun _ => "t"⟩

/-- Witness for `zero_paths_behavior` on `inpC10`. -/
theorem zero_paths_witness :
    pathfinder_lbfgs_multi inpC10
      = some ⟨softwareErrorCode,
          [ParamEvent.names (param_names ["x"])],
          [param_names ["x"]],
          ["No pathfinders ran successfully"]⟩ :=
  (zero_paths_behavior inpC10 rfl rfl).2.1

/-- C9: the header row — constrained names, then `lp_approx__`, then
`lp__` — is the first write on both sinks (and the only one on the
diagnostic sink), and after the draws the parameter sink receives exactly:
section break, pathfinder-time line, PSIS-time line left-padded to the label
width, total-time line, section break. -/
theorem success_trace (inp : MultiInputs)
    (hs : (runAllBlocks inp.runner inp.path inp.blocks).1.length ≠ 0)
    (h1 : 1 ≤ inp.num_multi_draws) (h2 : inp.num_multi_draws < 2 ^ 31) :
    ∃ draws : List ParamEvent, ∃ logs : List String,
      (∀ e ∈ draws, ∃ c, e = ParamEvent.draw c) ∧
      draws.length = inp.num_multi_draws.toNat ∧
      pathfinder_lbfgs_multi inp
        = some ⟨0,
            ParamEvent.names (inp.constrainedNames ++ ["lp_approx__", "lp__"])
              :: draws
              ++ [ParamEvent.brk,
                  ParamEvent.text (timeHeader ++ inp.render inp.pathTime
                    ++ " seconds (Pathfinders)"),
                  ParamEvent.text (timePad ++ inp.render inp.psisTime
                    ++ " seconds (PSIS)"),
                  ParamEvent.text (timePad ++ inp.render (inp.pathTime + inp.psisTime)
                    ++ " seconds (Total)"),
                  ParamEvent.brk],
            [inp.constrainedNames ++ ["lp_approx__", "lp__"]],
            logs⟩ ∧
      timePad.length = timeHeader.length := by
  have hb : drawBound inp.num_multi_draws = (inp.num_multi_draws - 1).toNat :=
    drawBound_of_pos _ h1 h2
  have hb2 : drawBound inp.num_multi_draws ≠ 2 ^ 64 - 1 := by
    rw [hb]; omega
  refine ⟨(List.range (drawBound inp.num_multi_draws + 1)).map fun j =>
      ParamEvent.draw ((aggSamples (runAllBlocks inp.runner inp.path inp.blocks).1).getD
        (inp.rng_draw inp.random_seed (resampleStream inp.path)
          (inp.psis_weights (aggRatios (runAllBlocks inp.runner inp.path inp.blocks).1)
            (tail_len (aggRatios (runAllBlocks inp.runner inp.path inp.blocks).1).length))
          j) []),
    (runAllBlocks inp.runner inp.path inp.blocks).2.map failLogMsg
      ++ evalCountLog inp.refresh (lpCalls (runAllBlocks inp.runner inp.path inp.blocks).1),
    ?_, ?_, ?_, by decide⟩
  · intro e he
    obtain ⟨j, _, hj⟩ := List.mem_map.mp he
    exact ⟨_, hj.symm⟩
  · rw [List.length_map, List.length_range, hb]
    omega
  · simp only [pathfinder_lbfgs_multi]
    rw [if_neg hs, if_neg hb2]
    rfl

/-- Concrete invocation for the C9 witness: one successful path with two
draws, `num_multi_draws = 2`. -/
noncomputable def inpC9 : MultiInputs :=
  ⟨["mu"], 1, 3, 0, 2, 1, [[0]],
   fun _ _ => ⟨false, [1, 2], [[5], [6]], 9⟩,
   fun _ _ => [1, 1], fun _ _ _ _ => 1, 0, 0, fun _ => "t"⟩

/-- Witness for `success_trace` on `inpC9`. -/
theorem success_trace_witness :
    ∃ draws : List ParamEvent, ∃ logs : List String,
      (∀ e ∈ draws, ∃ c, e = ParamEvent.draw c) ∧
      draws.length = 2 ∧
      pathfinder_lbfgs_multi inpC9
        = some ⟨0,
            ParamEvent.names (["mu"] ++ ["lp_approx__", "lp__"])
              :: draws
              ++ [ParamEvent.brk,
                  ParamEvent.text (timeHeader ++ "t" ++ " seconds (Pathfinders)"),
                  ParamEvent.text (timePad ++ "t" ++ " seconds (PSIS)"),
                  ParamEvent.text (timePad ++ "t" ++ " seconds (Total)"),
                  ParamEvent.brk],
            [["mu"] ++ ["lp_approx__", "lp__"]],
            logs⟩ ∧
      timePad.length = timeHeader.length :=
  success_trace inpC9 (by decide) (by decide) (by decide)

/-- Test whether a parameter-writer event is a draw row. -/
def isDraw : ParamEvent → Bool
  | ParamEvent.names _ => false
  | ParamEvent.draw _ => true
  | ParamEvent.brk => false
  | ParamEvent.text _ => false

/-- Every element produced by mapping `ParamEvent.draw` is a draw row. -/
theorem isDraw_map_draw {β : Type} (f : β → List ℝ) (l : List β) :
    ∀ e ∈ l.map fun j => ParamEvent.draw (f j), isDraw e = true := by
  intro e he
  obtain ⟨j, _, hj⟩ := List.mem_map.mp he
  rw [← hj]
  rfl

/-- In a parameter stream made of the header, draw rows and the timing
trailer, the draw rows are exactly the filtered draw events. -/
theorem filter_isDraw_shape (hdr : List String) (D : List ParamEvent)
    (hD : ∀ e ∈ D, isDraw e = true) (t1 t2 : ℝ) (render : ℝ → String) :
    (ParamEvent.names hdr :: D ++ trailerEvents t1 t2 render).filter isDraw = D := by
  simp only [List.filter_cons, List.filter_append, trailerEvents, isDraw,
    List.filter_nil, if_false, Bool.false_eq_true, if_neg]
  simp [List.filter_eq_self.mpr hD]

/-- Concrete invocation for C7: one successful path with two draws, the
weight-correction oracle returning the all-zero weight vector, and
`num_multi_draws = 1`. -/
noncomputable def inpC7 : MultiInputs :=
  ⟨["mu"], 1, 3, 0, 1, 1, [[0]],
   fun _ _ => ⟨false, [1, 2], [[5], [6]], 9⟩,
   fun _ _ => [0, 0], fun _ _ _ _ => 0, 0, 0, fun _ => "t"⟩

/-- C7 counterexample: the code never inspects the weight vector — with the
all-zero weight vector it still builds the categorical distribution, draws a
sample index, streams the corresponding column, and returns 0, which is not
the failure code: no explicit error status is surfaced. -/
theorem all_zero_weights_not_an_error :
    inpC7.psis_weights
        (aggRatios (runAllBlocks inpC7.runner inpC7.path inpC7.blocks).1)
        (tail_len 2) = [0, 0] ∧
    pathfinder_lbfgs_multi inpC7
      = some ⟨0,
          [ParamEvent.names (param_names ["mu"]), ParamEvent.draw [5]]
            ++ trailerEvents 0 0 (fun _ => "t"),
          [param_names ["mu"]], []⟩ ∧
    softwareErrorCode ≠ 0 :=
  ⟨rfl, rfl, by decide⟩

/-- C7 (amended): an all-zero weight vector after correction is not treated
as an error: the invocation proceeds to draw the requested number of sample
indices from it and returns the success code 0. -/
theorem degenerate_weights_proceed (inp : MultiInputs)
    (hs : (runAllBlocks inp.runner inp.path inp.blocks).1.length ≠ 0)
    (h1 : 1 ≤ inp.num_multi_draws) (h2 : inp.num_multi_draws < 2 ^ 31)
    (hz : ∀ w ∈ inp.psis_weights
        (aggRatios (runAllBlocks inp.runner inp.path inp.blocks).1)
        (tail_len (aggRatios (runAllBlocks inp.runner inp.path inp.blocks).1).length),
      w = (0 : ℝ)) :
    ∃ out : MultiOutput, pathfinder_lbfgs_multi inp = some out ∧
      out.retCode = 0 ∧
      (out.paramOut.filter isDraw).length = inp.num_multi_draws.toNat := by
  have hb : drawBound inp.num_multi_draws = (inp.num_multi_draws - 1).toNat :=
    drawBound_of_pos _ h1 h2
  have hb2 : drawBound inp.num_multi_draws ≠ 2 ^ 64 - 1 := by
    rw [hb]; omega
  refine ⟨⟨0,
      ParamEvent.names (param_names inp.constrainedNames)
        :: ((List.range (drawBound inp.num_multi_draws + 1)).map fun j =>
            ParamEvent.draw ((aggSamples (runAllBlocks inp.runner inp.path inp.blocks).1).getD
              (inp.rng_draw inp.random_seed (resampleStream inp.path)
                (inp.psis_weights (aggRatios (runAllBlocks inp.runner inp.path inp.blocks).1)
                  (tail_len (aggRatios (runAllBlocks inp.runner inp.path inp.blocks).1).length))
                j) []))
        ++ trailerEvents inp.pathTime inp.psisTime inp.render,
      [param_names inp.constrainedNames],
      (runAllBlocks inp.runner inp.path inp.blocks).2.map failLogMsg
        ++ evalCountLog inp.refresh (lpCalls (runAllBlocks inp.runner inp.path inp.blocks).1)⟩,
    ?_, rfl, ?_⟩
  · simp only [pathfinder_lbfgs_multi]
    rw [if_neg hs, if_neg hb2]
  · rw [filter_isDraw_shape _ _ (isDraw_map_draw _ _) _ _ _]
    rw [List.length_map, List.length_range, hb]
    omega

/-- Witness for `degenerate_weights_proceed` on `inpC7`. -/
theorem degenerate_weights_witness :
    ∃ out : MultiOutput, pathfinder_lbfgs_multi inpC7 = some out ∧
      out.retCode = 0 ∧
      (out.paramOut.filter isDraw).length = 1 :=
  degenerate_weights_proceed inpC7 (by decide) (by decide) (by decide)
    (by
      intro w hw
      rcases List.mem_cons.mp hw with h | h
      · exact h
      · rcases List.mem_cons.mp h with h2 | h2
        · exact h2
        · exact absurd h2 (List.not_mem_nil w))

/-- Index lemma for concatenation: inside the flattened list, the block of
sub-list `i` starts at the sum of the lengths of the earlier sub-lists and
preserves that sub-list's internal order. -/
theorem flatten_get_offset {α : Type} (L : List (List α)) (i : ℕ)
    (hi : i < L.length) (j : ℕ) (hj : j < (L.get ⟨i, hi⟩).length) :
    L.flatten[((L.take i).map List.length).sum + j]? = (L.get ⟨i, hi⟩)[j]? := by
  induction L generalizing i with
  | nil => exact absurd hi (Nat.not_lt_zero i)
  | cons hd tl ih =>
    cases i with
    | zero =>
      simp only [List.take_zero, List.map_nil, List.sum_nil, Nat.zero_add,
        List.flatten_cons, List.get]
      exact List.getElem?_append_left hj
    | succ i' =>
      have hi' : i' < tl.length := Nat.lt_of_succ_lt_succ hi
      have hoff : ((List.take (i' + 1) (hd :: tl)).map List.length).sum
          = hd.length + ((tl.take i').map List.length).sum := by
        simp [List.take_succ_cons]
      rw [List.flatten_cons, hoff, Nat.add_assoc,
        List.getElem?_append_right (Nat.le_add_right _ _),
        Nat.add_sub_cancel_left]
      exact ih i' hi' hj

/-- The per-path offsets computed from the ratio-vector lengths agree with
the sample-block offsets when every path has as many ratios as sample
columns. -/
theorem pathOffset_eq (rs : List PathResult)
    (hlen : ∀ r ∈ rs, r.lp_ratios.length = r.samples.length) (i : ℕ) :
    pathOffset rs i
      = (((rs.map fun r => r.samples).take i).map List.length).sum := by
  unfold pathOffset
  rw [← List.map_take, List.map_map]
  exact congrArg List.sum
    (List.map_congr_left fun r hr => hlen r (List.take_subset i rs hr))

/-- C6: for a non-empty list of successful path results whose ratio counts
equal their sample-column counts, the aggregated ratio length and the
aggregated column count both equal the sum of the per-path draw counts, and
column `j` of path `i` sits at index `pathOffset i + j` of the aggregated
matrix — each path's internal column order is preserved within its block. -/
theorem aggregation_invariant (rs : List PathResult)
    (hne : rs ≠ [])
    (hlen : ∀ r ∈ rs, r.lp_ratios.length = r.samples.length) :
    (aggRatios rs).length = numReturnedSamples rs ∧
    (aggSamples rs).length = numReturnedSamples rs ∧
    ∀ i : ℕ, ∀ hi : i < rs.length, ∀ j : ℕ,
      j < (rs.get ⟨i, hi⟩).samples.length →
      (aggSamples rs)[pathOffset rs i + j]? = (rs.get ⟨i, hi⟩).samples[j]? := by
  refine ⟨?_, ?_, ?_⟩
  · unfold aggRatios numReturnedSamples
    rw [List.length_flatten, List.map_map]
    rfl
  · unfold aggSamples numReturnedSamples
    rw [List.length_flatten, List.map_map]
    exact congrArg List.sum
      (List.map_congr_left fun r hr => (hlen r hr).symm)
  · intro i hi j hj
    have him : i < (rs.map fun (r : PathResult) => r.samples).length := by
      rw [List.length_map]; exact hi
    have hget : (rs.map fun (r : PathResult) => r.samples).get ⟨i, him⟩
        = (rs.get ⟨i, hi⟩).samples := by
      simp only [List.get_eq_getElem, List.getElem_map]
    have hj' : j < ((rs.map fun (r : PathResult) => r.samples).get ⟨i, him⟩).length := by
      rw [hget]; exact hj
    have hfl := flatten_get_offset (rs.map fun (r : PathResult) => r.samples) i him j hj'
    rw [hget] at hfl
    rw [pathOffset_eq rs hlen i]
    exact hfl

/-- Concrete path results for the C6 witness: two successful paths with two
and one draws. -/
noncomputable def rsC6 : List PathResult :=
  [⟨false, [1, 2], [[10], [20]], 0⟩, ⟨false, [3], [[30]], 0⟩]

/-- Witness for `aggregation_invariant` on `rsC6`, observed at path 1,
column 0 (aggregated index 2). -/
theorem aggregation_invariant_witness :
    (aggRatios rsC6).length = 3 ∧ (aggSamples rsC6).length = 3 ∧
    (aggSamples rsC6)[pathOffset rsC6 1 + 0]? = some [30] := by
  have h := aggregation_invariant rsC6 (by simp [rsC6])
    (by
      intro r hr
      rcases List.mem_cons.mp hr with h1 | h1
      · rw [h1]
        rfl
      · rcases List.mem_cons.mp h1 with h2 | h2
        · rw [h2]
          rfl
        · exact absurd h2 (List.not_mem_nil r))
  refine ⟨h.1, h.2.1, ?_⟩
  have h3 := h.2.2 1 (by decide) 0 (by decide)
  exact h3

end PathfinderMulti
